import Mathlib

/-!
Verification of the storyboard pipeline (`app/actions.ts`).

The TypeScript source is shallowly embedded below: every pure data
transformation of the pipeline (scene segmentation, model-JSON recovery,
scene-id reconciliation, image-stage skipping, concat-manifest building,
and the job boundary) is translated into executable Lean definitions.
JavaScript numbers are modelled as exact rationals (`ℚ`); JavaScript
strings as Lean `String`/`List Char`; nullable values as `Option`;
thrown exceptions as `Except String`.  External collaborators (speech,
text/image models, object storage, the transcoder subprocess) are
modelled as oracle inputs, never as code.
-/

/-- Characters the JavaScript string functions used by the source treat as
whitespace (the ASCII part of the ECMAScript white-space set; the pipeline
never feeds the exotic Unicode space characters through these helpers). -/
def jsWs (c : Char) : Bool :=
  c = ' ' || c = '\t' || c = '\n' || c = '\r' || c = Char.ofNat 11 || c = Char.ofNat 12

/-- Model of ECMAScript `String.prototype.trim` on the character-list level:
drop whitespace from both ends. -/
def trimChars (l : List Char) : List Char :=
  (l.dropWhile jsWs).rdropWhile jsWs

/-- Model of ECMAScript `String.prototype.trim`. -/
def jsTrim (s : String) : String :=
  ⟨trimChars s.data⟩

/-- Model of ECMAScript `Array.prototype.join(' ')` on character lists:
interleave a single space between the elements. -/
def joinChars : List (List Char) → List Char
  | [] => []
  | t :: ts =>
    match ts with
    | [] => t
    | _ :: _ => t ++ ' ' :: joinChars ts

/-- Model of ECMAScript `Array.prototype.join(' ')` for strings. -/
def jsJoinSpace (ts : List String) : String :=
  ⟨joinChars (ts.map String.data)⟩

/-- Model of ECMAScript `String.prototype.startsWith`. -/
def jsStartsWith (s pre : String) : Bool :=
  pre.data.isPrefixOf s.data

/-- Model of ECMAScript `String.prototype.endsWith`. -/
def jsEndsWith (s suf : String) : Bool :=
  suf.data.isSuffixOf s.data

/-- Maximal whitespace-free runs of a character list, used to state the
token-preservation properties ("split on whitespace", empty fragments
dropped).  The accumulator holds the current run, reversed. -/
def wsplitAux (acc : List Char) : List Char → List (List Char)
  | [] => if acc = [] then [] else [acc.reverse]
  | c :: cs =>
    if jsWs c then
      if acc = [] then wsplitAux [] cs else acc.reverse :: wsplitAux [] cs
    else wsplitAux (c :: acc) cs

/-- Whitespace-separated tokens of a character list. -/
def wsplit (l : List Char) : List (List Char) :=
  wsplitAux [] l

/-- Whitespace-separated tokens of a string. -/
def tokensOf (s : String) : List String :=
  (wsplit s.data).map fun l => ⟨l⟩

/-- One timed transcript word (`type WordInfo` in `actions.ts`); times are
seconds, modelled as exact rationals. -/
structure WordInfo where
  word : String
  startTime : ℚ
  endTime : ℚ
deriving DecidableEq, Repr

/-- One storyboard scene (`type Scene` in `actions.ts`).  `prompt` and
`image_url` are `string | null` in the source, hence `Option String`. -/
structure Scene where
  scene : ℚ
  start_time_secs : ℚ
  end_time_secs : ℚ
  script : String
  prompt : Option String
  image_url : Option String
deriving DecidableEq, Repr

/-- Sentence-terminal test of `runStep2_ChunkScript`: the regex
`/[.?!]|।/` tests whether the token contains one of the four glyphs. -/
def sentenceEnd (s : String) : Bool :=
  s.data.any fun c => c = '.' || c = '?' || c = '!' || c = '।'

/-- Target scene duration constant `TARGET_DURATION_SEC` of
`runStep2_ChunkScript`. -/
def TARGET_DURATION_SEC : ℚ := 7

/-- Loop body of `runStep2_ChunkScript`, embedded as recursion over the
remaining words.  `toks` is `currentTokens`, `start` is `currentStart`,
and `n` is `scenes.length` so far.  In the source a scene closes when the
current token matches the sentence-end regex and the elapsed duration has
reached the target, or at the last word; the token buffer is then reset
and the next buffer start is the following word's start time. -/
def chunkAux : List WordInfo → List String → ℚ → ℕ → List Scene
  | [], _, _, _ => []
  | w :: rest, toks, start, n =>
    if ((sentenceEnd w.word ∧ TARGET_DURATION_SEC ≤ w.endTime - start) ∨ rest = []) ∧
        toks ++ [w.word] ≠ [] then
      { scene := ((n + 1 : ℕ) : ℚ)
        start_time_secs := start
        end_time_secs := w.endTime
        script := jsTrim (jsJoinSpace (toks ++ [w.word]))
        prompt := none
        image_url := none } ::
      match rest with
      | [] => []
      | w2 :: _ => chunkAux rest [] w2.startTime (n + 1)
    else chunkAux rest (toks ++ [w.word]) start n

/-- `runStep2_ChunkScript` of `actions.ts` (its pure core; the
`saveChunkedJson` call into object storage is a collaborator side effect
and does not change the returned scene list). -/
def runStep2_ChunkScript (words : List WordInfo) : List Scene :=
  match words with
  | [] => []
  | w :: _ => chunkAux words [] w.startTime 0

example : runStep2_ChunkScript
    [⟨"Hi", 0, 1⟩, ⟨"there.", 1, (17/2 : ℚ)⟩] =
    [{ scene := 1, start_time_secs := 0, end_time_secs := (17/2 : ℚ),
       script := "Hi there.", prompt := none, image_url := none }] := by
  norm_num +decide [runStep2_ChunkScript, chunkAux, sentenceEnd, jsTrim, jsJoinSpace, joinChars,
    trimChars, TARGET_DURATION_SEC, Scene.mk.injEq, List.rdropWhile, List.dropWhile, jsWs]

/-- The double-quote character, named to keep character-literal syntax light. -/
def chQuote : Char := Char.ofNat 34

/-- The backtick character (Markdown fence delimiter). -/
def chBacktick : Char := Char.ofNat 96

/-- The opening-brace character. -/
def chLBrace : Char := Char.ofNat 123

/-- The closing-brace character. -/
def chRBrace : Char := Char.ofNat 125

/-- Parsed JSON values, the result type of the model of `JSON.parse`.
Objects keep their member list in source order; the pipeline's model
responses never carry a duplicated key, and property lookup (`jlookup`)
takes the last binding exactly as JavaScript would. -/
inductive JValue where
  | null
  | bool (b : Bool)
  | num (q : ℚ)
  | str (s : String)
  | arr (elems : List JValue)
  | obj (fields : List (String × JValue))

/-- JSON insignificant whitespace (RFC 8259: space, tab, line feed,
carriage return), as accepted by `JSON.parse`. -/
def jsonWs (c : Char) : Bool :=
  c = ' ' || c = '\t' || c = '\n' || c = '\r'

/-- Skip insignificant JSON whitespace. -/
def skipJsonWs (cs : List Char) : List Char :=
  cs.dropWhile jsonWs

/-- Value of a hexadecimal digit, for `\uXXXX` string escapes. -/
def hexVal (c : Char) : Option ℕ :=
  if '0' ≤ c ∧ c ≤ '9' then some (c.toNat - 48)
  else if 'a' ≤ c ∧ c ≤ 'f' then some (c.toNat - 87)
  else if 'A' ≤ c ∧ c ≤ 'F' then some (c.toNat - 55)
  else none

/-- Single-character JSON string escapes. -/
def escChar (c : Char) : Option Char :=
  if c = chQuote then some chQuote
  else if c = '\\' then some '\\'
  else if c = '/' then some '/'
  else if c = 'b' then some (Char.ofNat 8)
  else if c = 'f' then some (Char.ofNat 12)
  else if c = 'n' then some '\n'
  else if c = 'r' then some '\r'
  else if c = 't' then some '\t'
  else none

/-- Parse the body of a JSON string literal (the opening quote already
consumed): returns the decoded characters and the input after the closing
quote.  Control characters are rejected as in `JSON.parse`.  (Surrogate
pairs, which the pipeline's data never contains, are out of this model.) -/
def strChars : List Char → Option (List Char × List Char)
  | [] => none
  | c :: cs =>
    if c = chQuote then some ([], cs)
    else if c = '\\' then
      match cs with
      | [] => none
      | e :: cs2 =>
        if e = 'u' then
          match cs2 with
          | a :: b :: c3 :: d :: cs3 =>
            match hexVal a, hexVal b, hexVal c3, hexVal d with
            | some ha, some hb, some hc, some hd =>
              (strChars cs3).map fun p =>
                (Char.ofNat (((ha * 16 + hb) * 16 + hc) * 16 + hd) :: p.1, p.2)
            | _, _, _, _ => none
          | _ => none
        else
          match escChar e with
          | some ch => (strChars cs2).map fun p => (ch :: p.1, p.2)
          | none => none
    else if c.toNat < 32 then none
    else (strChars cs).map fun p => (c :: p.1, p.2)

/-- Numeric value of a list of decimal digits. -/
def digitsToNat (ds : List Char) : ℕ :=
  ds.foldl (fun n c => n * 10 + (c.toNat - 48)) 0

/-- Parse a JSON number (RFC 8259 grammar: optional minus, integer part
with no leading zero, optional fraction, optional exponent) to an exact
rational.  JavaScript would round to binary floating point; the pipeline
only ever compares small integers, where the two agree. -/
def parseNumber (cs : List Char) : Option (ℚ × List Char) :=
  let neg := cs.head? = some '-'
  let cs1 := if neg then cs.tail else cs
  let intDs := cs1.takeWhile Char.isDigit
  if intDs = [] then none
  else if intDs.length > 1 ∧ intDs.head? = some '0' then none
  else
    let cs2 := cs1.drop intDs.length
    let hasFrac := cs2.head? = some '.'
    let fracDs := if hasFrac then cs2.tail.takeWhile Char.isDigit else []
    if hasFrac ∧ fracDs = [] then none
    else
      let cs3 := if hasFrac then cs2.tail.drop fracDs.length else cs2
      let hasExp := cs3.head? = some 'e' ∨ cs3.head? = some 'E'
      let csE := if hasExp then cs3.tail else cs3
      let expNeg := hasExp ∧ csE.head? = some '-'
      let csE2 := if hasExp ∧ (csE.head? = some '-' ∨ csE.head? = some '+') then csE.tail else csE
      let expDs := if hasExp then csE2.takeWhile Char.isDigit else []
      if hasExp ∧ expDs = [] then none
      else
        let rest := if hasExp then csE2.drop expDs.length else cs3
        let mantissa : ℤ := (if neg then -1 else 1) * (digitsToNat (intDs ++ fracDs) : ℤ)
        let e : ℕ := digitsToNat expDs
        let q : ℚ :=
          if expNeg then Rat.divInt mantissa ((10 : ℤ) ^ (fracDs.length + e))
          else Rat.divInt (mantissa * (10 : ℤ) ^ e) ((10 : ℤ) ^ fracDs.length)
        some (q, rest)

/-- One pass of array-element parsing for the model of `JSON.parse`,
parameterised by the value parser `pv`; `fuel` bounds the number of
elements (each consumes at least one character). -/
def arrLoop (pv : List Char → Option (JValue × List Char)) :
    ℕ → List JValue → List Char → Option (List JValue × List Char)
  | 0, _, _ => none
  | f + 1, acc, cs =>
    match pv cs with
    | none => none
    | some (v, rest) =>
      match skipJsonWs rest with
      | c :: rest2 =>
        if c = ',' then arrLoop pv f (acc ++ [v]) rest2
        else if c = ']' then some (acc ++ [v], rest2)
        else none
      | [] => none

/-- One pass of object-member parsing for the model of `JSON.parse`. -/
def objLoop (pv : List Char → Option (JValue × List Char)) :
    ℕ → List (String × JValue) → List Char → Option (List (String × JValue) × List Char)
  | 0, _, _ => none
  | f + 1, acc, cs =>
    match skipJsonWs cs with
    | c :: rest =>
      if c = chQuote then
        match strChars rest with
        | none => none
        | some (k, rest2) =>
          match skipJsonWs rest2 with
          | c2 :: rest3 =>
            if c2 = ':' then
              match pv rest3 with
              | none => none
              | some (v, rest4) =>
                match skipJsonWs rest4 with
                | c3 :: rest5 =>
                  if c3 = ',' then objLoop pv f (acc ++ [(⟨k⟩, v)]) rest5
                  else if c3 = chRBrace then some (acc ++ [(⟨k⟩, v)], rest5)
                  else none
                | [] => none
            else none
          | [] => none
      else none
    | [] => none

/-- Model of `JSON.parse` value parsing; `fuel` bounds the nesting depth
(one unit per nested value, so input length + 1 always suffices). -/
def parseLevel : ℕ → List Char → Option (JValue × List Char)
  | 0, _ => none
  | f + 1, cs =>
    match skipJsonWs cs with
    | [] => none
    | c :: rest =>
      if c = chLBrace then
        match skipJsonWs rest with
        | c2 :: rest2 =>
          if c2 = chRBrace then some (.obj [], rest2)
          else (objLoop (parseLevel f) (rest.length + 1) [] rest).map fun p => (.obj p.1, p.2)
        | [] => none
      else if c = '[' then
        match skipJsonWs rest with
        | c2 :: rest2 =>
          if c2 = ']' then some (.arr [], rest2)
          else (arrLoop (parseLevel f) (rest.length + 1) [] rest).map fun p => (.arr p.1, p.2)
        | [] => none
      else if c = chQuote then
        (strChars rest).map fun p => (.str ⟨p.1⟩, p.2)
      else if "true".data.isPrefixOf (c :: rest) then some (.bool true, (c :: rest).drop 4)
      else if "false".data.isPrefixOf (c :: rest) then some (.bool false, (c :: rest).drop 5)
      else if "null".data.isPrefixOf (c :: rest) then some (.null, (c :: rest).drop 4)
      else (parseNumber (c :: rest)).map fun p => (.num p.1, p.2)

/-- Model of `JSON.parse`: parse one value, allow trailing whitespace,
reject anything else left over; `none` models a thrown `SyntaxError`. -/
def jsonParse (s : String) : Option JValue :=
  match parseLevel (s.data.length + 1) s.data with
  | some (v, rest) => if skipJsonWs rest = [] then some v else none
  | none => none

example : jsonParse " \x7b\"a\": 1, \"b\": [true, null]\x7d " =
    some (.obj [("a", .num 1), ("b", .arr [.bool true, .null])]) := rfl

example : jsonParse "\x7b\"a\":1,\x7d" = none := rfl

/-- Case-insensitive match of the literal `json` (the `(?:json)?` part of
the fence regex in `extractPossibleJSON`), returning the rest on success. -/
def ciJson : List Char → Option (List Char)
  | a :: b :: c :: d :: r =>
    if a.toLower = 'j' ∧ b.toLower = 's' ∧ c.toLower = 'o' ∧ d.toLower = 'n' then some r
    else none
  | _ => none

/-- Match the opening of a Markdown code fence at the head of the input:
three backticks, an optional case-insensitive `json` tag, then a newline
(the `` ```(?:json)?\n `` part of the regex, with the regex engine's
backtrack from the tagged to the untagged alternative). -/
def fenceOpenAt (cs : List Char) : Option (List Char) :=
  match cs with
  | t1 :: t2 :: t3 :: r =>
    if t1 = chBacktick ∧ t2 = chBacktick ∧ t3 = chBacktick then
      match ciJson r with
      | some ('\n' :: r3) => some r3
      | _ =>
        match r with
        | '\n' :: r4 => some r4
        | _ => none
    else none
  | _ => none

/-- Split the input at the first occurrence of three backticks (the lazy
`([\s\S]*?)` capture running up to the closing fence). -/
def splitFence : List Char → Option (List Char × List Char)
  | t1 :: t2 :: t3 :: r =>
    if t1 = chBacktick ∧ t2 = chBacktick ∧ t3 = chBacktick then some ([], r)
    else (splitFence (t2 :: t3 :: r)).map fun p => (t1 :: p.1, p.2)
  | _ => none

/-- Search for the fence regex `` /```(?:json)?\n([\s\S]*?)```/i `` at every
start position, leftmost first, and return the capture of the first full
match — the JavaScript `String.prototype.match` semantics used by
`extractPossibleJSON`. -/
def findFenceCapture : List Char → Option (List Char)
  | [] => none
  | c :: rest =>
    match fenceOpenAt (c :: rest) with
    | some r =>
      match splitFence r with
      | some (cap, _) => some cap
      | none => findFenceCapture rest
    | none => findFenceCapture rest

/-- `extractPossibleJSON` of `actions.ts`: empty text is returned as-is;
otherwise the text is trimmed, and if the trimmed text contains a fenced
block with a non-empty capture, the trimmed capture is returned, else the
trimmed text. -/
def extractPossibleJSON (text : String) : String :=
  if text = "" then text
  else
    let trimmed := jsTrim text
    match findFenceCapture trimmed.data with
    | some cap => if cap = [] then trimmed else jsTrim ⟨cap⟩
    | none => trimmed

/-- Scan step of the global replace `/,\s*([}\])]/g → $1`: at each comma,
if only whitespace separates it from a closing brace or bracket, the
comma and that whitespace are dropped and scanning resumes after the
bracket.  `fuel` bounds the number of steps (input length suffices, each
step consumes at least one character). -/
def rtcAux : ℕ → List Char → List Char
  | 0, cs => cs
  | _, [] => []
  | f + 1, c :: rest =>
    if c = ',' then
      match rest.dropWhile jsWs with
      | b :: r3 =>
        if b = chRBrace ∨ b = ']' then b :: rtcAux f r3
        else ',' :: rtcAux f rest
      | [] => ',' :: rtcAux f rest
    else c :: rtcAux f rest

/-- Replacement of the four typographic quotation marks (U+201C, U+201D,
U+2018, U+2019) by a plain double quote. -/
def smartQuote (c : Char) : Char :=
  if c = Char.ofNat 0x201C ∨ c = Char.ofNat 0x201D ∨
     c = Char.ofNat 0x2018 ∨ c = Char.ofNat 0x2019 then chQuote
  else c

/-- `removeTrailingCommas` of `actions.ts`: drop trailing commas before a
closing `\x7d` or `]`, then normalize smart quotes, in that order (the two
chained `.replace` calls). -/
def removeTrailingCommas (jsonLike : String) : String :=
  ⟨(rtcAux jsonLike.data.length jsonLike.data).map smartQuote⟩

/-- `parseModelJSON` of `actions.ts`: parse the raw text as-is; only if
that fails, sanitize (fence strip, trailing commas, smart quotes) and
parse again.  `none` models the final `JSON.parse` throw propagating. -/
def parseModelJSON (raw : String) : Option JValue :=
  match jsonParse raw with
  | some v => some v
  | none => jsonParse (removeTrailingCommas (extractPossibleJSON raw))

example : parseModelJSON "```json\n\x7b\"a\":1,\x7d\n```" = some (.obj [("a", .num 1)]) := rfl

/-- Property lookup on a parsed JSON object: the last binding of the key
wins, as in a JavaScript object built by `JSON.parse`; `none` models
`undefined`. -/
def jlookup (fields : List (String × JValue)) (key : String) : Option JValue :=
  (fields.reverse.find? fun p => p.1 = key).map fun p => p.2

/-- Whether a JavaScript value is nullish (`undefined` or `null`), the
values skipped by the `??` operator. -/
def isNullish : Option JValue → Bool
  | none => true
  | some .null => true
  | _ => false

/-- The `??` (nullish coalescing) operator. -/
def jsCoalesce (a b : Option JValue) : Option JValue :=
  if isNullish a then b else a

/-- `coerceSceneId` of `actions.ts`: a (finite) number is returned as-is;
a string has every non-digit stripped and the remainder parsed with
`parseInt` (`none` when no digits remain, modelling `NaN`); anything else
yields `null`.  JSON-parsed numbers are always finite, so the
`Number.isFinite` guard of the source is always true here.  (The model
parses digit strings exactly; JavaScript would overflow to `Infinity`,
and hence `null`, only beyond roughly 309 digits.) -/
def coerceSceneId : Option JValue → Option ℚ
  | some (.num x) => some x
  | some (.str s) =>
    let ds := s.data.filter Char.isDigit
    if ds = [] then none else some ((digitsToNat ds : ℕ) : ℚ)
  | _ => none

/-- The `scene_id ?? scene ?? id ?? index ?? null` probe of
`extractSceneId`. -/
def sceneIdCandidate (fields : List (String × JValue)) : Option JValue :=
  jsCoalesce (jlookup fields "scene_id")
    (jsCoalesce (jlookup fields "scene")
      (jsCoalesce (jlookup fields "id") (jlookup fields "index")))

/-- `extractSceneId` of `actions.ts`: non-objects (and `null`) yield
`null`; arrays are objects in JavaScript but carry none of the probed
properties; otherwise the candidate field is coerced. -/
def extractSceneId : JValue → Option ℚ
  | .obj fields => coerceSceneId (sceneIdCandidate fields)
  | _ => none

example : extractSceneId (.obj [("scene_id", .str "scene_2"), ("prompt", .str "x")]) = some 2 := by
  norm_num [extractSceneId, sceneIdCandidate, jlookup, jsCoalesce, isNullish, coerceSceneId,
    digitsToNat]
  rfl

/-- The `pRaw` computation of `runStep3_AnalyzeAndGeneratePrompts`:
`typeof scenePrompt.prompt === 'string' ? scenePrompt.prompt.trim() : ''`. -/
def trimmedPrompt (record : JValue) : String :=
  match record with
  | .obj fields =>
    match jlookup fields "prompt" with
    | some (.str s) => jsTrim s
    | _ => ""
  | _ => ""

/-- Test of the regex `/16:9\.?$/i` (no letters occur, so the
case-insensitive flag is inert): the prompt already ends with the
aspect-ratio marker, with or without the final full stop. -/
def endsWithAR (p : String) : Bool :=
  jsEndsWith p "16:9" || jsEndsWith p "16:9."

/-- The `promptFinal` normalization of `runStep3_AnalyzeAndGeneratePrompts`:
append the aspect-ratio marker unless already present, inserting a full
stop first unless the prompt already ends with one. -/
def normalizePrompt (pRaw : String) : String :=
  if endsWithAR pRaw then pRaw
  else if jsEndsWith pRaw "." then pRaw ++ " 16:9."
  else pRaw ++ ". 16:9."

/-- Model of `Map.set` on a JavaScript `Map<number, string>`: update in
place if the key exists, else append. -/
def mapSet (m : List (ℚ × String)) (k : ℚ) (v : String) : List (ℚ × String) :=
  if m.any fun p => p.1 = k then m.map fun p => if p.1 = k then (k, v) else p
  else m ++ [(k, v)]

/-- Model of `Map.get`: `none` models `undefined`. -/
def mapGet (m : List (ℚ × String)) (k : ℚ) : Option String :=
  (m.find? fun p => p.1 = k).map fun p => p.2

/-- One record's contribution in the first `parsed.scenes.forEach` of
`runStep3_AnalyzeAndGeneratePrompts`: a map entry is added exactly when
`sid && pRaw` is truthy, i.e. the coerced identifier exists and is
non-zero and the trimmed prompt is non-empty. -/
def idPassStep (m : List (ℚ × String)) (r : JValue) : List (ℚ × String) :=
  match extractSceneId r with
  | some sid =>
    if sid ≠ 0 ∧ trimmedPrompt r ≠ "" then mapSet m sid (normalizePrompt (trimmedPrompt r))
    else m
  | none => m

/-- The id-keyed prompt map built by the first `forEach`. -/
def idPassMap (records : List JValue) : List (ℚ × String) :=
  records.foldl idPassStep []

/-- The positional-fallback `forEach` of
`runStep3_AnalyzeAndGeneratePrompts`, with `i` the current 0-based
index: record `i` is assigned to scene number `i + 1` whenever its
trimmed prompt is non-empty. -/
def posAux (i : ℕ) (m : List (ℚ × String)) : List JValue → List (ℚ × String)
  | [] => m
  | r :: rest =>
    posAux (i + 1)
      (if trimmedPrompt r ≠ "" then mapSet m ((i + 1 : ℕ) : ℚ) (normalizePrompt (trimmedPrompt r))
       else m)
      rest

/-- The positional fallback map built from an empty map. -/
def positionalMap (records : List JValue) : List (ℚ × String) :=
  posAux 0 [] records

/-- JavaScript stringification of the pipeline's scene numbers (always
integers there): `String(2)` is `"2"`. -/
def numToStr (q : ℚ) : String :=
  if q.den = 1 then toString q.num else toString q

/-- The deterministic placeholder prompt for a scene absent from the
prompt map. -/
def placeholderPrompt (sceneNumber : ℚ) : String :=
  "Failed to generate prompt for scene " ++ numToStr sceneNumber

/-- The final `scenes.map` of `runStep3_AnalyzeAndGeneratePrompts`:
`promptMap.get(scene.scene) || placeholder` (an empty mapped string, which
in fact never occurs, would also fall back, being falsy). -/
def applyPromptMap (m : List (ℚ × String)) (scenes : List Scene) : List Scene :=
  scenes.map fun sc =>
    { sc with
      prompt := some
        (match mapGet m sc.scene with
         | some p => if p = "" then placeholderPrompt sc.scene else p
         | none => placeholderPrompt sc.scene) }

/-- The pure reconciliation core of `runStep3_AnalyzeAndGeneratePrompts`
(after the model response has been parsed and shape-checked): build the
id-keyed prompt map; if it ended up empty (`promptMap.size === 0`), apply
the positional fallback; then populate every scene's prompt. -/
def runStep3Core (scenes : List Scene) (records : List JValue) : List Scene :=
  let m := idPassMap records
  let m2 := if m = [] then positionalMap records else m
  applyPromptMap m2 scenes

/-- The skip test of `runStep4_GenerateImages`:
`!scene.prompt || scene.prompt.startsWith('Failed to generate')`. -/
def promptSkipped (sc : Scene) : Bool :=
  match sc.prompt with
  | none => true
  | some p => p = "" || jsStartsWith p "Failed to generate"

/-- The `ERROR:`-tagged marker recorded by `runStep4_GenerateImages` when
an image call fails (`error?.message || 'Unknown image generation
error'`). -/
def imageErrorMarker (msg : String) : String :=
  "ERROR: " ++ (if msg = "" then "Unknown image generation error" else msg)

/-- Loop of `runStep4_GenerateImages` over the scenes, embedded with the
outcome of the external image call for the scene at list position `i`
given by the oracle `img` (`Except.ok` carries the public URL the saved
image ends up at; `Except.error` carries the thrown message — a missing
image payload throws `'Imagen returned no image data.'` inside the same
`try`).  The storage write, the pacing sleeps and the artifact persistence
are collaborator side effects with no bearing on the returned list. -/
def step4Aux (img : ℕ → Except String String) : ℕ → List Scene → List Scene
  | _, [] => []
  | i, sc :: rest =>
    if promptSkipped sc then sc :: step4Aux img (i + 1) rest
    else
      match img i with
      | .ok url => { sc with image_url := some url } :: step4Aux img (i + 1) rest
      | .error e => { sc with image_url := some (imageErrorMarker e) } :: step4Aux img (i + 1) rest

/-- `runStep4_GenerateImages` of `actions.ts` (pure core). -/
def runStep4_GenerateImages (img : ℕ → Except String String) (scenes : List Scene) : List Scene :=
  step4Aux img 0 scenes

/-- The pathname of a WHATWG URL, for the two shapes this pipeline feeds
to `new URL`: a scheme followed by `//`, an authority and a slash-led
path (the `https:` storage URLs), or a scheme followed by an opaque path
(what an `ERROR:`-tagged marker string parses as).  Query and fragment
are cut off.  A string with no scheme would make the `URL` constructor
throw; the empty result stands for that impossible case. -/
def urlPathname (u : List Char) : List Char :=
  match u.dropWhile fun c => c ≠ ':' with
  | ':' :: r =>
    let path :=
      match r with
      | '/' :: '/' :: r2 => r2.dropWhile fun c => c ≠ '/'
      | _ => r
    path.takeWhile fun c => c ≠ '?' ∧ c ≠ '#'
  | _ => []

/-- `path.basename` on a pathname: the part after the last slash. -/
def pathBasename (p : List Char) : List Char :=
  (p.reverse.takeWhile fun c => c ≠ '/').reverse

/-- The `imageFileName` computation of `runStep5_CreateVideo`:
`path.basename(new URL(scene.image_url).pathname)`. -/
def urlFileName (u : String) : String :=
  ⟨pathBasename (urlPathname u.data)⟩

example : urlFileName "https://storage.googleapis.com/img-bucket/scene_001_5.png" =
    "scene_001_5.png" := rfl

example : urlFileName "ERROR: Imagen returned no image data." =
    " Imagen returned no image data." := rfl

/-- The minimum slideshow duration `0.05` of `runStep5_CreateVideo`. -/
def MIN_SCENE_DURATION : ℚ := 1 / 20

/-- One line pair (or the trailing single line) of the concat-demuxer
`inputs.txt` manifest. -/
inductive ManifestEntry where
  | fileDur (name : String) (durationSec : ℚ)
  | fileOnly (name : String)
deriving DecidableEq, Repr

/-- The manifest-building loop of `runStep5_CreateVideo`: scenes whose
`image_url` is falsy (`null` or empty) are skipped; every other scene
contributes a `file`/`duration` pair with duration
`Math.max(0.05, end_time_secs - start_time_secs)`, and its filename
becomes the running `lastImageFileName`. -/
def manifestLoop : List Scene → Option String → List ManifestEntry × Option String
  | [], last => ([], last)
  | sc :: rest, last =>
    match sc.image_url with
    | none => manifestLoop rest last
    | some u =>
      if u = "" then manifestLoop rest last
      else
        let name := urlFileName u
        let dur := max MIN_SCENE_DURATION (sc.end_time_secs - sc.start_time_secs)
        let next := manifestLoop rest (some name)
        (ManifestEntry.fileDur name dur :: next.1, next.2)

/-- The full `inputs.txt` manifest of `runStep5_CreateVideo`: the loop's
entries, then — if any image was listed — the last image's filename once
more with no duration (the concat demuxer's trailing-file requirement). -/
def buildManifest (scenes : List Scene) : List ManifestEntry :=
  let r := manifestLoop scenes none
  match r.2 with
  | none => r.1
  | some lastName => r.1 ++ [ManifestEntry.fileOnly lastName]

/-- Operations `runStep5_CreateVideo` performs on the job's working
directory, in order, as a trace: its creation, the `inputs.txt` write
(carrying the manifest content), and its `finally`-guarded recursive
removal. -/
inductive FsOp where
  | mkdirTemp
  | writeInputs (entries : List ManifestEntry)
  | rmTemp
deriving DecidableEq, Repr

/-- Whether the working directory exists after a trace of operations. -/
def dirExistsAfter (trace : List FsOp) : Bool :=
  trace.foldl
    (fun b op =>
      match op with
      | FsOp.mkdirTemp => true
      | FsOp.writeInputs _ => b
      | FsOp.rmTemp => false)
    false

/-- Outcomes of the external calls `runStep5_CreateVideo` makes, with the
thrown message on failure: the `assertFfmpeg` precondition, the audio
object download, each image object download (keyed by local filename),
the transcoder invocation, and the final video upload (whose success
carries the public video URL built from the video bucket and job id). -/
structure Step5World where
  assertFfmpeg : Except String Unit
  downloadAudio : Except String Unit
  downloadImage : String → Except String Unit
  transcode : Except String Unit
  uploadVideo : Except String String

/-- The download loop of `runStep5_CreateVideo`: scenes with a falsy
`image_url` are skipped (`if (!scene.image_url) continue`); the first
failing download throws out of the loop. -/
def downloadLoop (w : Step5World) : List Scene → Except String Unit
  | [] => .ok ()
  | sc :: rest =>
    match sc.image_url with
    | none => downloadLoop w rest
    | some u =>
      if u = "" then downloadLoop w rest
      else
        match w.downloadImage (urlFileName u) with
        | .ok _ => downloadLoop w rest
        | .error e => .error e

/-- The `try` block of `runStep5_CreateVideo`: audio download, image
downloads, `inputs.txt` write (recorded in the trace with the manifest
content), transcoder invocation (failure re-wrapped as `FFmpeg error: …`),
video upload.  The first failure short-circuits the rest. -/
def step5TryBody (w : Step5World) (scenes : List Scene) :
    Except String String × List FsOp :=
  match w.downloadAudio with
  | .error e => (.error e, [])
  | .ok _ =>
    match downloadLoop w scenes with
    | .error e => (.error e, [])
    | .ok _ =>
      let inputs := buildManifest scenes
      match w.transcode with
      | .error e => (.error ("FFmpeg error: " ++ e), [FsOp.writeInputs inputs])
      | .ok _ =>
        match w.uploadVideo with
        | .error e => (.error e, [FsOp.writeInputs inputs])
        | .ok url => (.ok url, [FsOp.writeInputs inputs])

/-- `runStep5_CreateVideo` of `actions.ts`, result plus directory trace:
the ffmpeg precondition runs before the working directory is created; the
`try` block's result stands, and the `finally` removal is appended to the
trace unconditionally. -/
def runStep5_CreateVideo (w : Step5World) (scenes : List Scene) :
    Except String String × List FsOp :=
  match w.assertFfmpeg with
  | .error e => (.error e, [])
  | .ok _ =>
    let body := step5TryBody w scenes
    (body.1, FsOp.mkdirTemp :: body.2 ++ [FsOp.rmTemp])

/-- `runStep1_Transcribe` of `actions.ts`, over the outcome of the audio
upload plus speech call (the oracle): a successful call with zero timed
words still throws. -/
def runStep1_Transcribe (call : Except String (List WordInfo)) : Except String (List WordInfo) :=
  match call with
  | .error e => .error e
  | .ok words => if words = [] then .error "Transcription produced zero words." else .ok words

/-- Truthiness of a JavaScript value held in a field (`none` models
`undefined`); `NaN` cannot arise from parsed JSON. -/
def jsTruthy (v : Option JValue) : Bool :=
  match v with
  | none => false
  | some .null => false
  | some (.bool b) => b
  | some (.num q) => q ≠ 0
  | some (.str s) => s ≠ ""
  | some (.arr _) => true
  | some (.obj _) => true

/-- The `scenes` array of the parsed model payload, if it is one
(`Array.isArray(parsed.scenes)`). -/
def scenesArrayOf (parsed : JValue) : Option (List JValue) :=
  match parsed with
  | .obj fields =>
    match jlookup fields "scenes" with
    | some (.arr records) => some records
    | _ => none
  | _ => none

/-- The `parsed?.analysis` truthiness check of
`runStep3_AnalyzeAndGeneratePrompts`. -/
def analysisOk (parsed : JValue) : Bool :=
  match parsed with
  | .obj fields => jsTruthy (jlookup fields "analysis")
  | _ => false

/-- `runStep3_AnalyzeAndGeneratePrompts` of `actions.ts`, over the
outcome of the text-model call: `call` is either a thrown error or the
pair (response text if any, block reason if any).  An absent text with a
block reason is the safety error; parse failure and shape failure are the
malformed-JSON errors (the source interpolates the underlying
`JSON.parse` message, summarized here); otherwise the pure
reconciliation core fills in the prompts. -/
def runStep3_AnalyzeAndGeneratePrompts
    (call : Except String (Option String × Option String)) (scenes : List Scene) :
    Except String (List Scene) :=
  match call with
  | .error e => .error e
  | .ok (respText, blockReason) =>
    match respText with
    | none =>
      match blockReason with
      | some br => .error ("Gemini safety blocked the request: " ++ br)
      | none => .error "Gemini returned an empty response for prompt generation."
    | some responseText =>
      let raw := extractPossibleJSON responseText
      match parseModelJSON raw with
      | none => .error "Gemini returned malformed JSON: SyntaxError"
      | some parsed =>
        match scenesArrayOf parsed with
        | none => .error "Gemini returned malformed JSON for prompt generation."
        | some records =>
          if analysisOk parsed then .ok (runStep3Core scenes records)
          else .error "Gemini returned malformed JSON for prompt generation."

/-- Everything external the whole job consumes: the uploaded file (or its
absence), the transcription outcome, the text-model call outcome, the
per-scene image call outcomes, and the step-5 collaborators. -/
structure PipelineWorld where
  audioFile : Option String
  transcribe : Except String (List WordInfo)
  modelCall : Except String (Option String × Option String)
  image : ℕ → Except String String
  step5 : Step5World

/-- What `generateStoryboard` returns to the caller: either the finalized
scene list plus the published video reference, or an error-message
object. -/
inductive JobResult where
  | ok (scenes : List Scene) (video : String)
  | err (message : String)
deriving DecidableEq, Repr

/-- The `try`-block body of `generateStoryboard`: the five stages
chained, each thrown error propagating to the job boundary. -/
def pipelineRun (w : PipelineWorld) : Except String (List Scene × String) :=
  match w.audioFile with
  | none => .error "No audio file found."
  | some _ =>
    match runStep1_Transcribe w.transcribe with
    | .error e => .error e
    | .ok words =>
      let scenes := runStep2_ChunkScript words
      match runStep3_AnalyzeAndGeneratePrompts w.modelCall scenes with
      | .error e => .error e
      | .ok scenesWithPrompts =>
        let finalScenes := runStep4_GenerateImages w.image scenesWithPrompts
        match (runStep5_CreateVideo w.step5 finalScenes).1 with
        | .error e => .error e
        | .ok videoUrl => .ok (finalScenes, videoUrl)

/-- `generateStoryboard` of `actions.ts`: the pipeline inside one `try`,
the catch turning any thrown error into
`\x7b error: error?.message || 'An unknown server error occurred.' \x7d`. -/
def generateStoryboard (w : PipelineWorld) : JobResult :=
  match pipelineRun w with
  | .ok (s, v) => .ok s v
  | .error e => .err (if e = "" then "An unknown server error occurred." else e)

/-! ### Theorems -/

theorem dirExistsAfter_append_rm (l : List FsOp) :
    dirExistsAfter (l ++ [FsOp.rmTemp]) = false := by
  unfold dirExistsAfter
  rw [List.foldl_append]
  rfl

/-- C8: on every exit path of video assembly — successful return,
transcoder failure, or download failure (and the fail-fast ffmpeg
precondition, where the directory is never created) — the job's working
directory is removed by the `finally` clause before control leaves
`runStep5_CreateVideo`, so it does not exist afterwards. -/
theorem runStep5_cleanup (w : Step5World) (scenes : List Scene) :
    dirExistsAfter (runStep5_CreateVideo w scenes).2 = false := by
  unfold runStep5_CreateVideo
  cases h : w.assertFfmpeg with
  | error e => rfl
  | ok u =>
    show dirExistsAfter
      ((FsOp.mkdirTemp :: (step5TryBody w scenes).2) ++ [FsOp.rmTemp]) = false
    exact dirExistsAfter_append_rm _

/-- C2: for every world of collaborator outcomes, the job entry point
returns either a complete result (finalized scenes plus published video
reference) or a single non-empty error message; every error thrown by a
stage is caught at the job boundary. -/
theorem generateStoryboard_total (w : PipelineWorld) :
    (∃ scenes video, generateStoryboard w = JobResult.ok scenes video) ∨
    (∃ msg, generateStoryboard w = JobResult.err msg ∧ msg ≠ "") := by
  unfold generateStoryboard
  cases h : pipelineRun w with
  | ok p =>
    exact Or.inl ⟨p.1, p.2, rfl⟩
  | error e =>
    refine Or.inr ⟨if e = "" then "An unknown server error occurred." else e, rfl, ?_⟩
    by_cases he : e = "" <;> simp [he]

/-- The per-scene behaviour of the image loop, as a function of the list
position and the call oracle. -/
def step4Body (img : ℕ → Except String String) (i : ℕ) (sc : Scene) : Scene :=
  if promptSkipped sc then sc
  else
    match img i with
    | .ok url => { sc with image_url := some url }
    | .error e => { sc with image_url := some (imageErrorMarker e) }

theorem step4Aux_cons (img : ℕ → Except String String) (i : ℕ) (sc : Scene)
    (rest : List Scene) :
    step4Aux img i (sc :: rest) = step4Body img i sc :: step4Aux img (i + 1) rest := by
  rw [step4Aux]
  unfold step4Body
  by_cases h : promptSkipped sc
  · simp [h]
  · cases hc : img i <;> simp [h, hc]

theorem step4Aux_getElem (img : ℕ → Except String String) (scenes : List Scene)
    (k : ℕ) : ∀ i : ℕ, (step4Aux img k scenes)[i]? = (scenes[i]?).map (step4Body img (k + i)) := by
  induction scenes generalizing k with
  | nil => intro i; rfl
  | cons sc rest ih =>
    intro i
    rw [step4Aux_cons]
    cases i with
    | zero => simp
    | succ j =>
      simp only [List.getElem?_cons_succ]
      rw [ih (k + 1) j]
      have h2 : k + 1 + j = k + (j + 1) := by omega
      rw [h2]

/-- C10: the image stage decides its skip by the string test of the
source — a scene passes through unchanged, with no image call made,
exactly when its prompt is null, empty, or begins with the literal text
`Failed to generate`; every other scene gets its call's resulting public
reference or the inline `ERROR:` marker.  In particular a genuine
model-produced prompt that happens to begin with that prefix is silently
skipped even though an image call would have succeeded. -/
theorem runStep4_skip_by_prefix :
    (∀ sc : Scene, promptSkipped sc = true ↔
      (sc.prompt = none ∨ sc.prompt = some "" ∨
        ∃ p, sc.prompt = some p ∧ jsStartsWith p "Failed to generate" = true)) ∧
    (∀ (img : ℕ → Except String String) (scenes : List Scene) (i : ℕ),
      (runStep4_GenerateImages img scenes)[i]? = (scenes[i]?).map (step4Body img i)) ∧
    runStep4_GenerateImages (fun _ => .ok "https://storage.googleapis.com/img/x.png")
      [{ scene := 1, start_time_secs := 0, end_time_secs := 2,
         script := "s",
         prompt := some "Failed to generate empathy, the hero turns away. 16:9.",
         image_url := none }] =
      [{ scene := 1, start_time_secs := 0, end_time_secs := 2,
         script := "s",
         prompt := some "Failed to generate empathy, the hero turns away. 16:9.",
         image_url := none }] := by
  refine ⟨?_, ?_, ?_⟩
  · intro sc
    unfold promptSkipped
    cases hp : sc.prompt with
    | none => simp
    | some p =>
      constructor
      · intro h
        rcases Bool.or_eq_true_iff.1 h with h1 | h2
        · exact Or.inr (Or.inl (by simpa using (decide_eq_true_eq.mp h1 ▸ rfl)))
        · exact Or.inr (Or.inr ⟨p, rfl, h2⟩)
      · rintro (h | h | ⟨q, hq, hpre⟩)
        · exact absurd h (by simp)
        · simp at h
          simp [h]
        · cases hq
          simp [hpre]
  · intro img scenes i
    have := step4Aux_getElem img scenes 0 i
    simpa [runStep4_GenerateImages] using this
  · rfl

/-- The truthiness test `!scene.image_url` of the step-5 loops: a scene
takes part in download and manifest exactly when its `image_url` is
neither `null` nor empty. -/
def hasImageRef (sc : Scene) : Bool :=
  match sc.image_url with
  | none => false
  | some u => u ≠ ""

/-- The local filename a participating scene's image is stored under. -/
def imageNameOf (sc : Scene) : String :=
  urlFileName (sc.image_url.getD "")

/-- The manifest line pair a participating scene contributes. -/
def manifestEntryOf (sc : Scene) : ManifestEntry :=
  ManifestEntry.fileDur (imageNameOf sc)
    (max MIN_SCENE_DURATION (sc.end_time_secs - sc.start_time_secs))

theorem manifestLoop_eq (scenes : List Scene) :
    ∀ last : Option String,
      manifestLoop scenes last =
        ((scenes.filter hasImageRef).map manifestEntryOf,
         match (scenes.filter hasImageRef).getLast? with
         | some sc => some (imageNameOf sc)
         | none => last) := by
  induction scenes with
  | nil => intro last; rfl
  | cons sc rest ih =>
    intro last
    cases hu : sc.image_url with
    | none =>
      have hfilt : ¬ hasImageRef sc := by simp [hasImageRef, hu]
      rw [show manifestLoop (sc :: rest) last = manifestLoop rest last by
        rw [manifestLoop]; rw [hu]]
      rw [ih last, List.filter_cons_of_neg hfilt]
    | some u =>
      by_cases he : u = ""
      · have hfilt : ¬ hasImageRef sc := by simp [hasImageRef, hu, he]
        rw [show manifestLoop (sc :: rest) last = manifestLoop rest last by
          rw [manifestLoop]; rw [hu]; simp [he]]
        rw [ih last, List.filter_cons_of_neg hfilt]
      · have hfilt : hasImageRef sc := by simp [hasImageRef, hu, he]
        have hname : urlFileName u = imageNameOf sc := by simp [imageNameOf, hu]
        rw [show manifestLoop (sc :: rest) last =
            (ManifestEntry.fileDur (urlFileName u)
               (max MIN_SCENE_DURATION (sc.end_time_secs - sc.start_time_secs)) ::
              (manifestLoop rest (some (urlFileName u))).1,
             (manifestLoop rest (some (urlFileName u))).2) by
          rw [manifestLoop]; rw [hu]; simp [he]]
        rw [ih (some (urlFileName u)), List.filter_cons_of_pos hfilt]
        cases hr : (rest.filter hasImageRef) with
        | nil => simp [manifestEntryOf, hname]
        | cons b l =>
          rcases h2 : (b :: l).getLast? with _ | x
          · simp at h2
          · simp [manifestEntryOf, hname, h2]

/-- C7: for every scene list whose scenes with valid (truthy, non-error)
image references appear in ascending scene-number order, the manifest is
exactly one `(file, duration)` entry per such scene, in that order, each
duration being `max(0.05, endTimeSec - startTimeSec)` and hence at least
`0.05`, followed by one trailing file-only entry repeating the last
image's filename (and nothing when no scene has an image). -/
theorem buildManifest_spec (scenes : List Scene)
    (hclean : ∀ sc ∈ scenes, ∀ u, sc.image_url = some u → u ≠ "" →
      jsStartsWith u "ERROR:" = false)
    (horder : (scenes.filter hasImageRef).Pairwise fun a b => a.scene ≤ b.scene) :
    buildManifest scenes =
      (scenes.filter hasImageRef).map manifestEntryOf ++
        (match (scenes.filter hasImageRef).getLast? with
         | some sc => [ManifestEntry.fileOnly (imageNameOf sc)]
         | none => []) ∧
    ∀ name d, ManifestEntry.fileDur name d ∈ buildManifest scenes →
      MIN_SCENE_DURATION ≤ d := by
  have hb : buildManifest scenes =
      (scenes.filter hasImageRef).map manifestEntryOf ++
        (match (scenes.filter hasImageRef).getLast? with
         | some sc => [ManifestEntry.fileOnly (imageNameOf sc)]
         | none => []) := by
    unfold buildManifest
    rw [manifestLoop_eq scenes none]
    cases hl : (scenes.filter hasImageRef).getLast? with
    | none => simp
    | some sc => simp
  refine ⟨hb, ?_⟩
  intro name d hmem
  rw [hb] at hmem
  rcases List.mem_append.1 hmem with hmap | htail
  · rcases List.mem_map.1 hmap with ⟨sc, _, hsc⟩
    simp only [manifestEntryOf, ManifestEntry.fileDur.injEq] at hsc
    rcases hsc with ⟨h1, h2⟩
    rw [← h2]
    exact le_max_left _ _
  · cases hl : (scenes.filter hasImageRef).getLast? with
    | none => rw [hl] at htail; simp at htail
    | some sc =>
      rw [hl] at htail
      simp at htail

/-- The three-scene list of the failed-image scenario: scene 2's image
call failed, so the image stage recorded the `ERROR:`-tagged marker in
place of its public reference. -/
def errorMarkerScenes : List Scene :=
  [{ scene := 1, start_time_secs := 0, end_time_secs := 5, script := "a",
     prompt := some "p1. 16:9.",
     image_url := some "https://storage.googleapis.com/img-bucket/scene_001_10.png" },
   { scene := 2, start_time_secs := 5, end_time_secs := 9, script := "b",
     prompt := some "p2. 16:9.",
     image_url := some "ERROR: Imagen returned no image data." },
   { scene := 3, start_time_secs := 9, end_time_secs := 12, script := "c",
     prompt := some "p3. 16:9.",
     image_url := some "https://storage.googleapis.com/img-bucket/scene_003_11.png" }]

/-- C1: the manifest loop skips a scene only when `image_url` is falsy,
so scene 2's `ERROR:`-tagged marker (exactly what the image stage records
on a failed call) is NOT skipped: the marker string is fed to the URL
parser and contributes a third `(file, duration)` entry — the manifest
the claim predicts (scene 2 omitted) is not what is built, and the
download loop will go on to request the marker-derived object, aborting
assembly, rather than proceeding without scene 2's image. -/
theorem manifest_includes_error_marker :
    imageErrorMarker "Imagen returned no image data." =
      "ERROR: Imagen returned no image data." ∧
    buildManifest errorMarkerScenes =
      [ManifestEntry.fileDur "scene_001_10.png" 5,
       ManifestEntry.fileDur " Imagen returned no image data." 4,
       ManifestEntry.fileDur "scene_003_11.png" 3,
       ManifestEntry.fileOnly "scene_003_11.png"] ∧
    ¬ buildManifest errorMarkerScenes =
      [ManifestEntry.fileDur "scene_001_10.png" 5,
       ManifestEntry.fileDur "scene_003_11.png" 3,
       ManifestEntry.fileOnly "scene_003_11.png"] := by
  refine ⟨rfl, ?_, ?_⟩
  · norm_num +decide [buildManifest, errorMarkerScenes, manifestLoop, urlFileName,
      urlPathname, pathBasename, MIN_SCENE_DURATION, ManifestEntry.fileDur.injEq]
  · intro h
    have h5 : (buildManifest errorMarkerScenes).length = 4 := by
      norm_num +decide [buildManifest, errorMarkerScenes, manifestLoop, urlFileName,
        urlPathname, pathBasename, MIN_SCENE_DURATION]
    rw [h] at h5
    simp at h5




/-- Scenes with valid images used to witness the manifest shape. -/
def c7scenes : List Scene :=
  [{ scene := 1, start_time_secs := 0, end_time_secs := 3, script := "a",
     prompt := some "p. 16:9.",
     image_url := some "https://storage.googleapis.com/img-bucket/scene_001_1.png" },
   { scene := 2, start_time_secs := 3, end_time_secs := 7, script := "b",
     prompt := none,
     image_url := some "https://storage.googleapis.com/img-bucket/scene_002_2.png" }]

/-- Witness for `buildManifest_spec` at a two-scene list with valid
images in ascending scene order. -/
theorem buildManifest_spec_witness :
    buildManifest c7scenes =
      (c7scenes.filter hasImageRef).map manifestEntryOf ++
        (match (c7scenes.filter hasImageRef).getLast? with
         | some sc => [ManifestEntry.fileOnly (imageNameOf sc)]
         | none => []) ∧
    ∀ name d, ManifestEntry.fileDur name d ∈ buildManifest c7scenes →
      MIN_SCENE_DURATION ≤ d :=
  buildManifest_spec c7scenes
    (by
      intro sc hsc u hu hne
      simp only [c7scenes, List.mem_cons, List.not_mem_nil, or_false] at hsc
      rcases hsc with rfl | rfl <;> (injection hu with h; subst h; decide))
    (by decide)

/-- C4 counterexample: a finite numeric identifier field is returned
as-is by identifier extraction, so the result can be `-2`, which is
neither a positive integer nor "no identifier". -/
theorem extractSceneId_negative_passthrough :
    extractSceneId (JValue.obj [("scene_id", JValue.num (-2)), ("prompt", JValue.str "x")]) =
      some (-2) ∧ ¬ (0 < (-2 : ℚ)) :=
  ⟨rfl, by norm_num⟩

/-- C4 amended: identifier extraction probes the fixed priority list
`scene_id`, `scene`, `id`, `index` and yields no identifier, or a
non-negative integer (the digit-stripped parse of string content), or —
for numeric content — the numeric field value itself unchanged, which
need not be positive nor an integer; absent or unparsable content yields
no identifier rather than an error. -/
theorem extractSceneId_spec (v : JValue) :
    extractSceneId v = none ∨
    (∃ n : ℕ, extractSceneId v = some (n : ℚ)) ∨
    (∃ fields x, v = JValue.obj fields ∧ sceneIdCandidate fields = some (JValue.num x) ∧
      extractSceneId v = some x) := by
  cases v with
  | obj fields =>
    cases hc : sceneIdCandidate fields with
    | none => exact Or.inl (by simp [extractSceneId, hc, coerceSceneId])
    | some jv =>
      cases jv with
      | num x =>
        exact Or.inr (Or.inr ⟨fields, x, rfl, hc, by simp [extractSceneId, hc, coerceSceneId]⟩)
      | str s =>
        by_cases hd : s.data.filter Char.isDigit = []
        · exact Or.inl (by simp [extractSceneId, hc, coerceSceneId, hd])
        · exact Or.inr (Or.inl ⟨digitsToNat (s.data.filter Char.isDigit),
            by simp [extractSceneId, hc, coerceSceneId, hd]⟩)
      | null => exact Or.inl (by simp [extractSceneId, hc, coerceSceneId])
      | bool b => exact Or.inl (by simp [extractSceneId, hc, coerceSceneId])
      | arr es => exact Or.inl (by simp [extractSceneId, hc, coerceSceneId])
      | obj f2 => exact Or.inl (by simp [extractSceneId, hc, coerceSceneId])
  | null => exact Or.inl rfl
  | bool b => exact Or.inl rfl
  | num q => exact Or.inl rfl
  | str s => exact Or.inl rfl
  | arr es => exact Or.inl rfl

/-- Model records for the fallback counterexample: the first has a
perfectly recoverable identifier (`"2"`) but an empty prompt, the second
has no identifier fields at all and a usable prompt. -/
def c5records : List JValue :=
  [JValue.obj [("scene_id", JValue.str "2"), ("prompt", JValue.str "")],
   JValue.obj [("prompt", JValue.str "cat")]]

/-- Two bare scenes for the fallback counterexample. -/
def c5scenes : List Scene :=
  [{ scene := 1, start_time_secs := 0, end_time_secs := 3, script := "a",
     prompt := none, image_url := none },
   { scene := 2, start_time_secs := 3, end_time_secs := 7, script := "b",
     prompt := none, image_url := none }]

/-- C5 counterexample: record 1's identifier `"2"` is recoverable, yet
the id pass contributes nothing (its prompt is empty), the map stays
empty, and positional assignment runs: scene 2 receives record 2's
prompt by position.  Under the claim, a recoverable identifier would
force the id-based mapping, leaving scene 2 with the placeholder. -/
theorem positional_fallback_despite_recoverable_id :
    extractSceneId (JValue.obj [("scene_id", JValue.str "2"), ("prompt", JValue.str "")]) =
      some 2 ∧
    idPassMap c5records = [] ∧
    (runStep3Core c5scenes c5records).map (fun sc => sc.prompt) =
      [some "Failed to generate prompt for scene 1", some "cat. 16:9."] := by
  refine ⟨rfl, rfl, ?_⟩
  rfl

theorem mapSet_ne_nil (m : List (ℚ × String)) (k : ℚ) (v : String) : mapSet m k v ≠ [] := by
  unfold mapSet
  split
  · rename_i hany
    intro hmap
    rw [List.map_eq_nil_iff] at hmap
    subst hmap
    simp at hany
  · intro h
    simp at h

/-- A record the id pass ignores: no identifier, a zero identifier, or
an empty trimmed prompt. -/
def recordDisqualified (r : JValue) : Prop :=
  extractSceneId r = none ∨ extractSceneId r = some 0 ∨ trimmedPrompt r = ""

theorem idPassStep_eq_nil_iff (m : List (ℚ × String)) (r : JValue) :
    idPassStep m r = [] ↔ m = [] ∧ recordDisqualified r := by
  unfold idPassStep recordDisqualified
  cases hx : extractSceneId r with
  | none => simp
  | some sid =>
    by_cases h1 : sid = 0
    · subst h1
      simp
    · by_cases h2 : trimmedPrompt r = ""
      · simp [h1, h2]
      · simp [h1, h2, mapSet_ne_nil]

theorem foldl_idPass_nil_iff (records : List JValue) :
    ∀ m, List.foldl idPassStep m records = [] ↔
      m = [] ∧ ∀ r ∈ records, recordDisqualified r := by
  induction records with
  | nil => intro m; simp
  | cons r rest ih =>
    intro m
    rw [List.foldl_cons, ih (idPassStep m r), idPassStep_eq_nil_iff]
    constructor
    · rintro ⟨⟨hm, hr⟩, hrest⟩
      refine ⟨hm, ?_⟩
      intro x hx
      rcases List.mem_cons.1 hx with rfl | hx2
      · exact hr
      · exact hrest x hx2
    · rintro ⟨hm, hall⟩
      exact ⟨⟨hm, hall r (List.mem_cons_self r rest)⟩,
        fun x hx => hall x (List.mem_cons_of_mem r hx)⟩

/-- C5 amended: positional assignment is applied exactly when the
id-keyed pass produced an empty map — that is, when every record lacks
an identifier, or has identifier `0`, or has an empty trimmed prompt;
a recoverable identifier on a record whose prompt is empty does not
prevent the fallback. -/
theorem runStep3Core_fallback_iff (scenes : List Scene) (records : List JValue) :
    (idPassMap records = [] ↔ ∀ r ∈ records, recordDisqualified r) ∧
    runStep3Core scenes records =
      applyPromptMap
        (if idPassMap records = [] then positionalMap records else idPassMap records) scenes := by
  constructor
  · unfold idPassMap
    rw [foldl_idPass_nil_iff]
    simp
  · rfl

/-- C6: the model-response parser first parses the raw text as-is and on
success returns that value (so it agrees with plain JSON parsing on every
already-valid JSON text); only on failure does it strip a Markdown fence,
normalize smart quotes and drop trailing commas before a closing brace or
bracket — and the fenced example with a trailing comma parses to the
one-member object. -/
theorem parseModelJSON_spec :
    (∀ raw v, jsonParse raw = some v → parseModelJSON raw = some v) ∧
    parseModelJSON "```json\n\x7b\"a\":1,\x7d\n```" = some (JValue.obj [("a", JValue.num 1)]) := by
  constructor
  · intro raw v h
    unfold parseModelJSON
    rw [h]
  · rfl

/-- Witness for `parseModelJSON_spec` on an already-valid JSON text. -/
theorem parseModelJSON_spec_witness :
    parseModelJSON "\x7b\"b\":2\x7d" = some (JValue.obj [("b", JValue.num 2)]) :=
  parseModelJSON_spec.1 "\x7b\"b\":2\x7d" (JValue.obj [("b", JValue.num 2)]) rfl

theorem wsplitAux_all_ws (t : List Char) : ∀ acc, (∀ c ∈ t, jsWs c = true) →
    wsplitAux acc t = if acc = [] then [] else [acc.reverse] := by
  induction t with
  | nil => intro acc h; rfl
  | cons c cs ih =>
    intro acc h
    have hc : jsWs c = true := h c (List.mem_cons_self c cs)
    have h0 := ih [] fun x hx => h x (List.mem_cons_of_mem c hx)
    simp only [wsplitAux, hc, if_true]
    simp only [if_pos rfl] at h0
    by_cases hacc : acc = [] <;> simp [hacc, h0]

theorem wsplitAux_sep (sep : Char) (hsep : jsWs sep = true) (b : List Char) :
    ∀ (a : List Char) (acc : List Char),
      wsplitAux acc (a ++ sep :: b) = wsplitAux acc a ++ wsplit b := by
  intro a
  induction a with
  | nil =>
    intro acc
    show wsplitAux acc (sep :: b) = wsplitAux acc [] ++ wsplit b
    simp only [wsplitAux, hsep, if_true]
    by_cases hacc : acc = [] <;> simp [hacc, wsplit]
  | cons c cs ih =>
    intro acc
    show wsplitAux acc (c :: (cs ++ sep :: b)) = wsplitAux acc (c :: cs) ++ wsplit b
    simp only [wsplitAux]
    by_cases hc : jsWs c = true
    · simp only [hc, if_true]
      by_cases hacc : acc = [] <;> simp [hacc, ih]
    · simp only [hc, if_false]
      exact ih (c :: acc)

theorem wsplit_join (ts : List (List Char)) :
    wsplit (joinChars ts) = (ts.map wsplit).flatten := by
  induction ts with
  | nil => rfl
  | cons t ts ih =>
    cases ts with
    | nil => simp [joinChars]
    | cons t2 ts2 =>
      show wsplit (t ++ ' ' :: joinChars (t2 :: ts2)) = _
      unfold wsplit
      rw [wsplitAux_sep ' ' rfl (joinChars (t2 :: ts2)) t []]
      rw [ih]
      simp only [List.map_cons, List.flatten_cons]
      rfl

theorem wsplit_dropWhile (l : List Char) : wsplit (l.dropWhile jsWs) = wsplit l := by
  induction l with
  | nil => rfl
  | cons c cs ih =>
    by_cases hc : jsWs c = true
    · rw [List.dropWhile_cons_of_pos hc, ih]
      show _ = wsplitAux [] (c :: cs)
      simp [wsplitAux, hc, wsplit]
    · rw [List.dropWhile_cons_of_neg (by simp [hc])]

theorem wsplitAux_append_ws (t : List Char) (ht : ∀ c ∈ t, jsWs c = true) :
    ∀ (a : List Char) (acc : List Char), wsplitAux acc (a ++ t) = wsplitAux acc a := by
  intro a
  induction a with
  | nil =>
    intro acc
    show wsplitAux acc t = wsplitAux acc []
    rw [wsplitAux_all_ws t acc ht]
    rfl
  | cons c cs ih =>
    intro acc
    show wsplitAux acc (c :: (cs ++ t)) = wsplitAux acc (c :: cs)
    simp only [wsplitAux]
    by_cases hc : jsWs c = true
    · simp only [hc, if_true]
      by_cases hacc : acc = [] <;> simp [hacc, ih]
    · simp only [hc, if_false]
      exact ih (c :: acc)

theorem wsplit_trimChars (l : List Char) : wsplit (trimChars l) = wsplit l := by
  unfold trimChars
  have hdecomp : l.dropWhile jsWs =
      (l.dropWhile jsWs).rdropWhile jsWs ++ (l.dropWhile jsWs).rtakeWhile jsWs := by
    unfold List.rdropWhile List.rtakeWhile
    rw [← List.reverse_append, List.takeWhile_append_dropWhile, List.reverse_reverse]
  have hws : ∀ c ∈ (l.dropWhile jsWs).rtakeWhile jsWs, jsWs c = true := fun c hc =>
    List.mem_rtakeWhile_imp hc
  have h1 : wsplit (l.dropWhile jsWs) = wsplit ((l.dropWhile jsWs).rdropWhile jsWs) := by
    conv_lhs => rw [hdecomp]
    exact wsplitAux_append_ws _ hws _ []
  rw [← h1, wsplit_dropWhile]

theorem tokensOf_script (ts : List String) :
    tokensOf (jsTrim (jsJoinSpace ts)) = (ts.map tokensOf).flatten := by
  unfold tokensOf jsTrim jsJoinSpace
  rw [show (String.mk (trimChars (joinChars (ts.map String.data)))).data =
      trimChars (joinChars (ts.map String.data)) from rfl]
  rw [wsplit_trimChars, wsplit_join]
  rw [List.map_flatten, List.map_map, List.map_map]
  rfl

theorem chunkAux_cons (w : WordInfo) (rest : List WordInfo) (toks : List String) (start : ℚ)
    (n : ℕ) :
    chunkAux (w :: rest) toks start n =
      if ((sentenceEnd w.word ∧ TARGET_DURATION_SEC ≤ w.endTime - start) ∨ rest = []) ∧
          toks ++ [w.word] ≠ [] then
        { scene := ((n + 1 : ℕ) : ℚ), start_time_secs := start, end_time_secs := w.endTime,
          script := jsTrim (jsJoinSpace (toks ++ [w.word])), prompt := none,
          image_url := none } ::
        (match rest with
         | [] => []
         | w2 :: _ => chunkAux rest [] w2.startTime (n + 1))
      else chunkAux rest (toks ++ [w.word]) start n := rfl

theorem chunkAux_ne_nil : ∀ (ws : List WordInfo) (toks : List String) (start : ℚ) (n : ℕ),
    ws ≠ [] → chunkAux ws toks start n ≠ [] := by
  intro ws
  induction ws with
  | nil => intro toks start n h; exact absurd rfl h
  | cons w rest ih =>
    intro toks start n _
    rw [chunkAux_cons]
    split_ifs with hcond
    · simp
    · have hrest : rest ≠ [] := fun h0 => hcond (by simp [h0])
      exact ih _ _ _ hrest

theorem chunkAux_tokens : ∀ (ws : List WordInfo) (toks : List String) (start : ℚ) (n : ℕ),
    ws ≠ [] →
    ((chunkAux ws toks start n).map fun sc => tokensOf sc.script).flatten =
      (toks.map tokensOf).flatten ++ ((ws.map fun w => tokensOf w.word).flatten) := by
  intro ws
  induction ws with
  | nil => intro toks start n h; exact absurd rfl h
  | cons w rest ih =>
    intro toks start n _
    rw [chunkAux_cons]
    split_ifs with hcond
    · cases rest with
      | nil =>
        simp [tokensOf_script, List.map_append]
      | cons w2 r2 =>
        have ihr := ih [] w2.startTime (n + 1) (by simp)
        simp only [List.map_cons, List.flatten_cons, tokensOf_script, ihr]
        simp [List.map_append, List.append_assoc]
      
    · have hrest : rest ≠ [] := fun h0 => hcond (by simp [h0])
      rw [ih (toks ++ [w.word]) start n hrest]
      simp [List.map_append, List.append_assoc]

theorem chunkAux_map_scene : ∀ (ws : List WordInfo) (toks : List String) (start : ℚ) (n : ℕ),
    (chunkAux ws toks start n).map (fun sc => sc.scene) =
      (List.range' (n + 1) (chunkAux ws toks start n).length).map (fun i => (i : ℚ)) := by
  intro ws
  induction ws with
  | nil => intro toks start n; rfl
  | cons w rest ih =>
    intro toks start n
    rw [chunkAux_cons]
    split_ifs with hcond
    · cases rest with
      | nil => rfl
      | cons w2 r2 =>
        simp only [List.map_cons, List.length_cons]
        rw [ih [] w2.startTime (n + 1)]
        rw [List.range'_succ]
        simp [Nat.add_assoc, Nat.add_comm 1 1]
    · exact ih _ _ _

theorem chunkAux_times : ∀ (ws : List WordInfo) (toks : List String) (start : ℚ) (n : ℕ),
    List.Pairwise (fun a b => a.startTime ≤ b.startTime) ws →
    (∀ w ∈ ws, w.startTime ≤ w.endTime) →
    (∀ w ∈ ws, start ≤ w.startTime) →
    (∀ sc ∈ chunkAux ws toks start n,
        sc.start_time_secs ≤ sc.end_time_secs ∧ start ≤ sc.start_time_secs) ∧
      List.Pairwise (fun a b => a.start_time_secs ≤ b.start_time_secs)
        (chunkAux ws toks start n) := by
  intro ws
  induction ws with
  | nil =>
    intro toks start n _ _ _
    exact ⟨fun sc h => absurd h (List.not_mem_nil sc), List.Pairwise.nil⟩
  | cons w rest ih =>
    intro toks start n hpw hwe hst
    obtain ⟨hwall, hrestpw⟩ := List.pairwise_cons.1 hpw
    rw [chunkAux_cons]
    split_ifs with hcond
    · cases rest with
      | nil =>
        refine ⟨?_, by simp⟩
        intro sc hsc
        simp only [List.mem_singleton] at hsc
        subst hsc
        exact ⟨le_trans (hst w (List.mem_cons_self w [])) (hwe w (List.mem_cons_self w [])),
          le_refl _⟩
      | cons w2 r2 =>
        have hst' : ∀ x ∈ w2 :: r2, w2.startTime ≤ x.startTime := by
          intro x hx
          rcases List.mem_cons.1 hx with rfl | hx2
          · exact le_refl _
          · exact (List.pairwise_cons.1 hrestpw).1 x hx2
        have hwe' : ∀ x ∈ w2 :: r2, x.startTime ≤ x.endTime := fun x hx =>
          hwe x (List.mem_cons_of_mem w hx)
        obtain ⟨ihmem, ihpw⟩ := ih [] w2.startTime (n + 1) hrestpw hwe' hst'
        have hsw2 : start ≤ w2.startTime := hst w2 (List.mem_cons_of_mem w (List.mem_cons_self w2 r2))
        refine ⟨?_, ?_⟩
        · intro sc hsc
          rcases List.mem_cons.1 hsc with rfl | hsc2
          · exact ⟨le_trans (hst w (List.mem_cons_self _ _)) (hwe w (List.mem_cons_self _ _)),
              le_refl _⟩
          · obtain ⟨h1, h2⟩ := ihmem sc hsc2
            exact ⟨h1, le_trans hsw2 h2⟩
        · rw [List.pairwise_cons]
          exact ⟨fun sc hsc => le_trans hsw2 (ihmem sc hsc).2, ihpw⟩
    · exact ih _ start n hrestpw (fun x hx => hwe x (List.mem_cons_of_mem w hx))
        (fun x hx => hst x (List.mem_cons_of_mem w hx))

/-- C3: for every non-empty timed-word sequence, segmentation emits at
least one scene, and the concatenation of all scenes' script tokens
(split on whitespace), in scene order, equals the concatenation of the
input words' tokens. -/
theorem runStep2_token_preservation (words : List WordInfo) (hne : words ≠ []) :
    runStep2_ChunkScript words ≠ [] ∧
    ((runStep2_ChunkScript words).map fun sc => tokensOf sc.script).flatten =
      (words.map fun w => tokensOf w.word).flatten := by
  cases words with
  | nil => exact absurd rfl hne
  | cons w rest =>
    unfold runStep2_ChunkScript
    refine ⟨chunkAux_ne_nil _ _ _ _ (by simp), ?_⟩
    have h := chunkAux_tokens (w :: rest) [] w.startTime 0 (by simp)
    simpa using h

/-- Witness for `runStep2_token_preservation` on a concrete two-word
input. -/
theorem runStep2_token_preservation_witness :
    runStep2_ChunkScript [⟨"Hi", 0, 1⟩, ⟨"there.", 1, 9⟩] ≠ [] ∧
    ((runStep2_ChunkScript [⟨"Hi", 0, 1⟩, ⟨"there.", 1, 9⟩]).map
        fun sc => tokensOf sc.script).flatten =
      (([⟨"Hi", 0, 1⟩, ⟨"there.", 1, 9⟩] : List WordInfo).map
        fun w => tokensOf w.word).flatten :=
  runStep2_token_preservation [⟨"Hi", 0, 1⟩, ⟨"there.", 1, 9⟩] (by simp)

/-- C9: when the words' start times are non-decreasing (as in a temporal
ordering) and each word has start ≤ end, every emitted scene has
`start_time_secs ≤ end_time_secs`, scene numbers are the sequence
1, 2, …, and scenes are ordered by non-decreasing start time. -/
theorem runStep2_scene_invariants (words : List WordInfo)
    (hmono : List.Pairwise (fun a b => a.startTime ≤ b.startTime) words)
    (hwe : ∀ w ∈ words, w.startTime ≤ w.endTime) :
    (∀ sc ∈ runStep2_ChunkScript words, sc.start_time_secs ≤ sc.end_time_secs) ∧
    (runStep2_ChunkScript words).map (fun sc => sc.scene) =
      (List.range' 1 (runStep2_ChunkScript words).length).map (fun i => (i : ℚ)) ∧
    List.Pairwise (fun a b => a.start_time_secs ≤ b.start_time_secs)
      (runStep2_ChunkScript words) := by
  cases words with
  | nil =>
    exact ⟨by simp [runStep2_ChunkScript], by simp [runStep2_ChunkScript],
      by simp [runStep2_ChunkScript]⟩
  | cons w rest =>
    unfold runStep2_ChunkScript
    have hst : ∀ x ∈ w :: rest, w.startTime ≤ x.startTime := by
      intro x hx
      rcases List.mem_cons.1 hx with rfl | hx2
      · exact le_refl _
      · exact (List.pairwise_cons.1 hmono).1 x hx2
    obtain ⟨hmem, hpw⟩ := chunkAux_times (w :: rest) [] w.startTime 0 hmono hwe hst
    exact ⟨fun sc hsc => (hmem sc hsc).1, chunkAux_map_scene (w :: rest) [] w.startTime 0, hpw⟩

/-- Witness for `runStep2_scene_invariants` on a concrete two-word
input. -/
theorem runStep2_scene_invariants_witness :
    (∀ sc ∈ runStep2_ChunkScript [⟨"Hi", 0, 1⟩, ⟨"there.", (1 : ℚ), 9⟩],
      sc.start_time_secs ≤ sc.end_time_secs) ∧
    (runStep2_ChunkScript [⟨"Hi", 0, 1⟩, ⟨"there.", (1 : ℚ), 9⟩]).map (fun sc => sc.scene) =
      (List.range' 1
        (runStep2_ChunkScript [⟨"Hi", 0, 1⟩, ⟨"there.", (1 : ℚ), 9⟩]).length).map
        (fun i => (i : ℚ)) ∧
    List.Pairwise (fun a b => a.start_time_secs ≤ b.start_time_secs)
      (runStep2_ChunkScript [⟨"Hi", 0, 1⟩, ⟨"there.", (1 : ℚ), 9⟩]) :=
  runStep2_scene_invariants [⟨"Hi", 0, 1⟩, ⟨"there.", (1 : ℚ), 9⟩]
    (by decide) (by decide)
